import Mathlib

/-!
Shallow embedding of the persistence and query layer of the note-organizer
backend (`src/backend/app/db.py`).  SQLite tables become Lean lists, a
connection-scoped operation becomes a pure function from a database state to a
new state plus its result, and `CURRENT_TIMESTAMP` becomes an explicit `now`
parameter.  Timestamps are naturals.

One point of runtime semantics is modelled deliberately: the sqlite3
connections opened by `get_conn` never execute `PRAGMA foreign_keys = ON`, and
sqlite defaults foreign-key enforcement to OFF, so the `ON DELETE CASCADE`
clauses declared by `init_db` are not enforced when `delete_note` runs.
`delete_note` therefore removes only the row of the `notes` table and leaves
the note's `note_tags` rows in place.
-/

namespace NotesApp

/-- A row of the `tags` table: integer id and (intended unique) name. -/
structure Tag where
  id : Nat
  name : String
  deriving Repr, DecidableEq

/-- A row of the `notes` table. `category` is nullable; timestamps are
naturals standing for `DATETIME` values. -/
structure Note where
  id : Nat
  title : String
  content : String
  category : Option String
  created_at : Nat
  updated_at : Nat
  deriving Repr, DecidableEq

/-- The whole database: the three tables of `init_db` plus the AUTOINCREMENT
counters of `notes` and `tags` (sqlite AUTOINCREMENT never reuses ids). -/
structure DB where
  notes : List Note
  tags : List Tag
  note_tags : List (Nat × Nat)
  nextNoteId : Nat
  nextTagId : Nat
  deriving Repr, DecidableEq

/-- The freshly initialized database: empty tables, counters at 1. -/
def initDB : DB := ⟨[], [], [], 1, 1⟩

/-- Input of `create_note`: `title` and `content` are required, `category`
and `tags` may be absent (`data.get` returns `None`). -/
structure CreateData where
  title : String
  content : String
  category : Option String
  tags : Option (List String)
  deriving Repr, DecidableEq

/-- Input of `update_note`: each field is mutated only when present in the
dict, so every field is wrapped in `Option` for presence; a present `category`
may itself be null. -/
structure UpdateData where
  title : Option String
  content : Option String
  category : Option (Option String)
  tags : Option (List String)
  deriving Repr, DecidableEq

/-- A note as returned to the caller: the row plus its `tags` list. -/
structure NoteOut where
  note : Note
  tags : List String
  deriving Repr, DecidableEq

/-- Python's `str.strip()`: drop whitespace from both ends of the string. -/
def strip (s : String) : String :=
  ⟨((s.data.dropWhile Char.isWhitespace).reverse.dropWhile Char.isWhitespace).reverse⟩

/-- The names `get_or_create_tag_ids` actually processes: each input name
stripped, with entries that are empty after stripping dropped. -/
def cleanNames (tag_names : List String) : List String :=
  (tag_names.map strip).filter (fun s => s ≠ "")

/-- SQLite's LIKE folds only ASCII letters when comparing case-insensitively. -/
def sqlLower (c : Char) : Char :=
  if 'A' ≤ c ∧ c ≤ 'Z' then Char.ofNat (c.toNat + 32) else c

/-- SQLite LIKE matching over characters, fuelled so that the recursion is
structural (every step consumes at least one pattern or subject character, so
`ps.length + cs.length + 1` units of fuel always suffice and the out-of-fuel
branch is dead): `%` matches any sequence, `_` any single character, and any
other pattern character matches ASCII case-insensitively. -/
def likeMatchF : Nat → List Char → List Char → Bool
  | 0, _, _ => false
  | _ + 1, [], cs => cs.isEmpty
  | f + 1, '%' :: ps, [] => likeMatchF f ps []
  | f + 1, '%' :: ps, c :: cs => likeMatchF f ps (c :: cs) || likeMatchF f ('%' :: ps) cs
  | _ + 1, '_' :: _, [] => false
  | f + 1, '_' :: ps, _ :: cs => likeMatchF f ps cs
  | _ + 1, _ :: _, [] => false
  | f + 1, p :: ps, c :: cs => (sqlLower p = sqlLower c) && likeMatchF f ps cs

/-- SQLite LIKE matching with the fuel prefilled. -/
def likeMatch (ps cs : List Char) : Bool :=
  likeMatchF (ps.length + cs.length + 1) ps cs

/-- The predicate behind `n.title LIKE ?` with parameter `%q%`. -/
def likeStr (q s : String) : Bool :=
  likeMatch ("%" ++ q ++ "%").data s.data

/-- Python truthiness of an `Optional[str]` filter: `None` and `""` are both
falsy, so `if q:` skips the clause for either. -/
def truthyOpt : Option String → Option String
  | none => none
  | some s => if s = "" then none else some s

/-- One `INSERT INTO tags (name) VALUES (?)` statement: append a tag row with
the next AUTOINCREMENT id. -/
def addTag (db : DB) (nm : String) : DB :=
  { db with tags := db.tags ++ [⟨db.nextTagId, nm⟩], nextTagId := db.nextTagId + 1 }

/-- `get_or_create_tag_ids`: for each name, strip whitespace, skip empties,
look the name up in `tags` and append its id, inserting a fresh row when
absent.  Returns the updated state and the ids in input order. -/
def get_or_create_tag_ids (db : DB) (tag_names : List String) : DB × List Nat :=
  match tag_names with
  | [] => (db, [])
  | name :: rest =>
    let nm := strip name
    if nm = "" then get_or_create_tag_ids db rest
    else
      match db.tags.find? (fun t => t.name = nm) with
      | some t =>
        let r := get_or_create_tag_ids db rest
        (r.1, t.id :: r.2)
      | none =>
        let tid := db.nextTagId
        let r := get_or_create_tag_ids (addTag db nm) rest
        (r.1, tid :: r.2)

/-- One `INSERT OR IGNORE INTO note_tags` statement: a duplicate
(note_id, tag_id) pair is silently skipped, anything else is appended. -/
def insertPair (nts : List (Nat × Nat)) (p : Nat × Nat) : List (Nat × Nat) :=
  if p ∈ nts then nts else nts ++ [p]

/-- The `for tid in tag_ids` insertion loop of `set_note_tags`. -/
def insertAssocs (note_id : Nat) (nts : List (Nat × Nat)) (tag_ids : List Nat) :
    List (Nat × Nat) :=
  tag_ids.foldl (fun acc tid => insertPair acc (note_id, tid)) nts

/-- `set_note_tags`: delete the note's association rows, resolve or create the
tag ids, re-insert the associations with OR IGNORE, and return the sorted
deduplicated names of the resolved ids (`sorted(set(names))`). -/
def set_note_tags (db : DB) (note_id : Nat) (tag_names : List String) : DB × List String :=
  let db0 : DB := { db with note_tags := db.note_tags.filter (fun p => p.1 ≠ note_id) }
  let r := get_or_create_tag_ids db0 tag_names
  let db2 : DB := { r.1 with note_tags := insertAssocs note_id r.1.note_tags r.2 }
  let names := r.2.filterMap (fun tid => (db2.tags.find? (fun t => t.id = tid)).map Tag.name)
  (db2, List.insertionSort (fun a b => a ≤ b) names.eraseDups)

/-- Proof-side repackaging of the tail of `set_note_tags`, taking the result
of its `get_or_create_tag_ids` call; `set_note_tags` is definitionally
`sntCore note_id` of that call (theorem `snt_eq`). -/
def sntCore (note_id : Nat) (r : DB × List Nat) : DB × List String :=
  let db2 : DB := { r.1 with note_tags := insertAssocs note_id r.1.note_tags r.2 }
  (db2, List.insertionSort (fun a b => a ≤ b)
    (r.2.filterMap (fun tid => (db2.tags.find? (fun t => t.id = tid)).map Tag.name)).eraseDups)

/-- `get_tags_for_note`: join `note_tags` with `tags` on the note's id and
return the names ordered by name ascending. -/
def get_tags_for_note (db : DB) (note_id : Nat) : List String :=
  List.insertionSort (fun a b => a ≤ b)
    ((db.note_tags.filter (fun p => p.1 = note_id)).flatMap
      (fun p => (db.tags.filter (fun t => t.id = p.2)).map Tag.name))

/-- Descending (updated_at, created_at) order used by `ORDER BY
n.updated_at DESC, n.created_at DESC`. -/
def noteLe (a b : Note) : Prop :=
  b.updated_at < a.updated_at ∨ (b.updated_at = a.updated_at ∧ b.created_at ≤ a.created_at)

instance : DecidableRel noteLe := fun a b =>
  inferInstanceAs (Decidable (b.updated_at < a.updated_at ∨
    (b.updated_at = a.updated_at ∧ b.created_at ≤ a.created_at)))

instance : IsTotal Note noteLe where
  total a b := by
    unfold noteLe
    rcases Nat.lt_trichotomy a.updated_at b.updated_at with h | h | h
    · exact Or.inr (Or.inl h)
    · rcases Nat.le_total a.created_at b.created_at with hc | hc
      · exact Or.inr (Or.inr ⟨h, hc⟩)
      · exact Or.inl (Or.inr ⟨h.symm, hc⟩)
    · exact Or.inl (Or.inl h)

instance : IsTrans Note noteLe where
  trans a b c hab hbc := by
    unfold noteLe at *
    rcases hab with h1 | ⟨h1, h1'⟩ <;> rcases hbc with h2 | ⟨h2, h2'⟩
    · exact Or.inl (Nat.lt_trans h2 h1)
    · exact Or.inl (h2 ▸ h1)
    · exact Or.inl (h1 ▸ h2)
    · exact Or.inr ⟨h2.trans h1, h2'.trans h1'⟩

/-- `list_notes`: optional filters `q` (LIKE on title or content), `category`
(equality) and `tag` (join to a tag of that name), combined with AND, ordered
by `updated_at` then `created_at` descending, each row carrying its tags. -/
def list_notes (db : DB) (q tag category : Option String) : List NoteOut :=
  let base : List Note :=
    match truthyOpt tag with
    | some s =>
      db.notes.flatMap (fun n =>
        (db.note_tags.filter (fun p => p.1 = n.id)).flatMap (fun p =>
          ((db.tags.filter (fun t => t.id = p.2)).filter (fun t => t.name = s)).map
            (fun _ => n)))
    | none => db.notes
  let withQ : List Note :=
    match truthyOpt q with
    | some s => base.filter (fun n => likeStr s n.title || likeStr s n.content)
    | none => base
  let withCat : List Note :=
    match truthyOpt category with
    | some s => withQ.filter (fun n => n.category = some s)
    | none => withQ
  (List.insertionSort noteLe withCat).map (fun n => ⟨n, get_tags_for_note db n.id⟩)

/-- `create_note`: insert the row with a fresh id and both timestamps set to
now; when a non-empty tag list is supplied (`if tags:`), call `set_note_tags`;
return the materialized note with its normalized tag list ([] otherwise). -/
def create_note (db : DB) (now : Nat) (data : CreateData) : DB × NoteOut :=
  let nid := db.nextNoteId
  let note : Note := ⟨nid, data.title, data.content, data.category, now, now⟩
  let db1 : DB := { db with notes := db.notes ++ [note], nextNoteId := nid + 1 }
  let tags := data.tags.getD []
  if tags = [] then (db1, ⟨note, []⟩)
  else
    let r := set_note_tags db1 nid tags
    (r.1, ⟨note, r.2⟩)

/-- `get_note`: fetch the row by id, `none` when absent, otherwise attach the
tag names. -/
def get_note (db : DB) (note_id : Nat) : Option NoteOut :=
  match db.notes.find? (fun n => n.id = note_id) with
  | none => none
  | some n => some ⟨n, get_tags_for_note db note_id⟩

/-- The effect of the `UPDATE notes SET ...` statement of `update_note` on a
single row: write the present fields and refresh `updated_at`. -/
def applySets (data : UpdateData) (now : Nat) (n : Note) : Note :=
  { n with
    title := data.title.getD n.title
    content := data.content.getD n.content
    category := data.category.getD n.category
    updated_at := now }

/-- `update_note`: not-found when the id is absent; otherwise write exactly
the present non-tag fields and, when at least one of them is present, also
`updated_at = CURRENT_TIMESTAMP`; when `tags` is present replace the tag set;
finally re-fetch and return the note with its tags.  (The final fetch cannot
miss: the row was checked at entry and never deleted; the `none` branch is
dead code kept for totality.) -/
def update_note (db : DB) (now : Nat) (note_id : Nat) (data : UpdateData) :
    DB × Option NoteOut :=
  match db.notes.find? (fun n => n.id = note_id) with
  | none => (db, none)
  | some _ =>
    let hasSets := data.title.isSome || data.content.isSome || data.category.isSome
    let db1 : DB :=
      if hasSets then
        { db with notes := db.notes.map (fun n =>
            if n.id = note_id then applySets data now n else n) }
      else db
    let db2 : DB :=
      match data.tags with
      | some ts => (set_note_tags db1 note_id ts).1
      | none => db1
    match db2.notes.find? (fun n => n.id = note_id) with
    | none => (db2, none)
    | some n => (db2, some ⟨n, get_tags_for_note db2 note_id⟩)

/-- `delete_note`: `DELETE FROM notes WHERE id = ?`, result `rowcount > 0`.
Because `get_conn` never enables `PRAGMA foreign_keys`, the declared
`ON DELETE CASCADE` does not fire at runtime: `note_tags` is untouched. -/
def delete_note (db : DB) (note_id : Nat) : DB × Bool :=
  let remaining := db.notes.filter (fun n => n.id ≠ note_id)
  ({ db with notes := remaining }, remaining.length < db.notes.length)

/-- Database states reachable from a fresh database through the repository's
state-changing operations. -/
inductive Reach : DB → Prop where
  | init : Reach initDB
  | create (db : DB) (now : Nat) (d : CreateData) :
      Reach db → Reach (create_note db now d).1
  | update (db : DB) (now : Nat) (nid : Nat) (d : UpdateData) :
      Reach db → Reach (update_note db now nid d).1
  | delete (db : DB) (nid : Nat) :
      Reach db → Reach (delete_note db nid).1

/-- Well-formedness of a database state: unique tag names and ids, ids below
the counters, unique note ids, unique association pairs, and association
note-ids below the note counter (AUTOINCREMENT never reuses ids). -/
def WF (db : DB) : Prop :=
  (db.tags.map Tag.name).Nodup ∧
  (db.tags.map Tag.id).Nodup ∧
  (∀ t ∈ db.tags, t.id < db.nextTagId) ∧
  (db.notes.map Note.id).Nodup ∧
  (∀ n ∈ db.notes, n.id < db.nextNoteId) ∧
  db.note_tags.Nodup ∧
  (∀ p ∈ db.note_tags, p.1 < db.nextNoteId)

/-! Frame, stability and idempotence lemmas for `get_or_create_tag_ids`. -/

theorem gocti_frame (db : DB) (ns : List String) :
    (get_or_create_tag_ids db ns).1.notes = db.notes ∧
      (get_or_create_tag_ids db ns).1.note_tags = db.note_tags ∧
      (get_or_create_tag_ids db ns).1.nextNoteId = db.nextNoteId := by
  induction ns generalizing db with
  | nil => exact ⟨rfl, rfl, rfl⟩
  | cons n rest ih =>
    unfold get_or_create_tag_ids
    by_cases h : strip n = ""
    · simpa [h] using ih db
    · simp only [h, if_false]
      cases hf : db.tags.find? (fun t => t.name = strip n) with
      | some t => simpa using ih db
      | none => simpa using ih _

theorem gocti_tags_ext (db : DB) (ns : List String) :
    ∃ ext, (get_or_create_tag_ids db ns).1.tags = db.tags ++ ext := by
  induction ns generalizing db with
  | nil => exact ⟨[], by simp [get_or_create_tag_ids]⟩
  | cons n rest ih =>
    unfold get_or_create_tag_ids
    by_cases h : strip n = ""
    · simpa [h] using ih db
    · simp only [h, if_false]
      cases hf : db.tags.find? (fun t => t.name = strip n) with
      | some t => simpa using ih db
      | none =>
        obtain ⟨ext, he⟩ := ih (addTag db (strip n))
        refine ⟨⟨db.nextTagId, strip n⟩ :: ext, ?_⟩
        simpa [addTag] using he

theorem gocti_find_stable (db : DB) (ns : List String) (p : Tag → Bool) (t : Tag)
    (h : db.tags.find? p = some t) :
    (get_or_create_tag_ids db ns).1.tags.find? p = some t := by
  obtain ⟨ext, he⟩ := gocti_tags_ext db ns
  rw [he, List.find?_append, h, Option.or]

theorem gocti_length (db : DB) (ns : List String) :
    (get_or_create_tag_ids db ns).2.length = (cleanNames ns).length := by
  induction ns generalizing db with
  | nil => rfl
  | cons n rest ih =>
    unfold get_or_create_tag_ids
    by_cases h : strip n = ""
    · simpa [cleanNames, h] using ih db
    · simp only [h, if_false]
      cases hf : db.tags.find? (fun t => t.name = strip n) with
      | some t => simpa [cleanNames, h] using ih db
      | none => simpa [cleanNames, h] using ih _

theorem gocti_lookup (db : DB) (ns : List String) (i : Nat) :
    (get_or_create_tag_ids db ns).2[i]? =
      ((cleanNames ns)[i]?).bind
        (fun nm => ((get_or_create_tag_ids db ns).1.tags.find? (fun t => t.name = nm)).map
          Tag.id) := by
  induction ns generalizing db i with
  | nil => simp [get_or_create_tag_ids, cleanNames]
  | cons n rest ih =>
    unfold get_or_create_tag_ids
    by_cases h : strip n = ""
    · simpa [cleanNames, h] using ih db i
    · simp only [h, if_false]
      cases hf : db.tags.find? (fun t => t.name = strip n) with
      | some t =>
        have hst := gocti_find_stable db rest _ t hf
        cases i with
        | zero => simp [cleanNames, h, hst]
        | succ j => simpa [cleanNames, h] using ih db j
      | none =>
        have hone : (addTag db (strip n)).tags.find? (fun t => t.name = strip n) =
            some ⟨db.nextTagId, strip n⟩ := by
          simp only [addTag, List.find?_append, hf, Option.or]
          simp
        have hst := gocti_find_stable (addTag db (strip n)) rest _ _ hone
        cases i with
        | zero => simp [cleanNames, h, hst]
        | succ j => simpa [cleanNames, h] using ih (addTag db (strip n)) j

theorem gocti_cons (db : DB) (n : String) (rest : List String) :
    get_or_create_tag_ids db (n :: rest) =
      (if strip n = "" then get_or_create_tag_ids db rest
       else
        match db.tags.find? (fun t => t.name = strip n) with
        | some t =>
          ((get_or_create_tag_ids db rest).1, t.id :: (get_or_create_tag_ids db rest).2)
        | none =>
          ((get_or_create_tag_ids (addTag db (strip n)) rest).1,
            db.nextTagId :: (get_or_create_tag_ids (addTag db (strip n)) rest).2)) := rfl

theorem gocti_cons_found (db : DB) (n : String) (rest : List String) (t : Tag)
    (h : ¬ strip n = "") (hf : db.tags.find? (fun t => t.name = strip n) = some t) :
    get_or_create_tag_ids db (n :: rest) =
      ((get_or_create_tag_ids db rest).1, t.id :: (get_or_create_tag_ids db rest).2) := by
  rw [gocti_cons db n rest, if_neg h, hf]

theorem gocti_idem (db : DB) (ns : List String) :
    get_or_create_tag_ids (get_or_create_tag_ids db ns).1 ns = get_or_create_tag_ids db ns := by
  induction ns generalizing db with
  | nil => rfl
  | cons n rest ih =>
    by_cases h : strip n = ""
    · rw [gocti_cons db n rest, if_pos h, gocti_cons _ n rest, if_pos h]
      exact ih db
    · cases hf : db.tags.find? (fun t => t.name = strip n) with
      | some t =>
        have hst := gocti_find_stable db rest _ t hf
        rw [gocti_cons_found db n rest t h hf, gocti_cons_found _ n rest t h hst, ih db]
      | none =>
        have hone : (addTag db (strip n)).tags.find? (fun t => t.name = strip n) =
            some ⟨db.nextTagId, strip n⟩ := by
          simp only [addTag, List.find?_append, hf, Option.or]
          simp
        have hst := gocti_find_stable (addTag db (strip n)) rest _ _ hone
        have h1 : get_or_create_tag_ids db (n :: rest) =
            ((get_or_create_tag_ids (addTag db (strip n)) rest).1,
              db.nextTagId :: (get_or_create_tag_ids (addTag db (strip n)) rest).2) := by
          rw [gocti_cons db n rest, if_neg h, hf]
        rw [h1, gocti_cons_found _ n rest _ h hst, ih (addTag db (strip n))]

/-! Lemmas about the association-insertion loop. -/

theorem insertAssocs_cons (nid : Nat) (acc : List (Nat × Nat)) (tid : Nat) (rest : List Nat) :
    insertAssocs nid acc (tid :: rest) = insertAssocs nid (insertPair acc (nid, tid)) rest := rfl

theorem insertAssocs_filter_ne (nid : Nat) (acc : List (Nat × Nat)) (ids : List Nat) :
    (insertAssocs nid acc ids).filter (fun p => p.1 ≠ nid) =
      acc.filter (fun p => p.1 ≠ nid) := by
  induction ids generalizing acc with
  | nil => rfl
  | cons tid rest ih =>
    rw [insertAssocs_cons, ih]
    unfold insertPair
    by_cases hm : (nid, tid) ∈ acc
    · rw [if_pos hm]
    · rw [if_neg hm, List.filter_append]
      simp

theorem insertAssocs_nodup (nid : Nat) (acc : List (Nat × Nat)) (ids : List Nat)
    (h : acc.Nodup) : (insertAssocs nid acc ids).Nodup := by
  induction ids generalizing acc with
  | nil => exact h
  | cons tid rest ih =>
    rw [insertAssocs_cons]
    apply ih
    unfold insertPair
    by_cases hm : (nid, tid) ∈ acc
    · rwa [if_pos hm]
    · rw [if_neg hm, List.nodup_append]
      refine ⟨h, List.nodup_singleton _, ?_⟩
      intro x hx hx1
      rw [List.mem_singleton] at hx1
      exact hm (hx1 ▸ hx)

theorem insertAssocs_filter_nodup (nid : Nat) (q : Nat × Nat → Bool) (acc : List (Nat × Nat))
    (ids : List Nat) (h : (acc.filter q).Nodup) :
    ((insertAssocs nid acc ids).filter q).Nodup := by
  induction ids generalizing acc with
  | nil => exact h
  | cons tid rest ih =>
    rw [insertAssocs_cons]
    apply ih
    unfold insertPair
    by_cases hm : (nid, tid) ∈ acc
    · rwa [if_pos hm]
    · rw [if_neg hm, List.filter_append]
      cases hq : q (nid, tid) with
      | false => simpa [hq] using h
      | true =>
        simp only [List.filter_cons, hq, if_true, List.filter_nil]
        rw [List.nodup_append]
        refine ⟨h, List.nodup_singleton _, ?_⟩
        intro x hx hx1
        rw [List.mem_singleton] at hx1
        exact hm (hx1 ▸ List.mem_of_mem_filter hx)

theorem insertAssocs_mem_of (nid : Nat) (acc : List (Nat × Nat)) (ids : List Nat)
    (x : Nat × Nat) (h : x ∈ insertAssocs nid acc ids) : x ∈ acc ∨ x.1 = nid := by
  induction ids generalizing acc with
  | nil => exact Or.inl h
  | cons tid rest ih =>
    rw [insertAssocs_cons] at h
    rcases ih _ h with hin | h1
    · unfold insertPair at hin
      by_cases hm : (nid, tid) ∈ acc
      · rw [if_pos hm] at hin; exact Or.inl hin
      · rw [if_neg hm, List.mem_append] at hin
        rcases hin with hin | hin
        · exact Or.inl hin
        · rw [List.mem_singleton] at hin
          exact Or.inr (by rw [hin])
    · exact Or.inr h1

/-! Frame and idempotence lemmas for `set_note_tags`. -/

theorem snt_eq (db : DB) (nid : Nat) (ns : List String) :
    set_note_tags db nid ns =
      sntCore nid
        (get_or_create_tag_ids
          { db with note_tags := db.note_tags.filter (fun p => p.1 ≠ nid) } ns) := rfl

theorem snt_notes (db : DB) (nid : Nat) (ns : List String) :
    (set_note_tags db nid ns).1.notes = db.notes :=
  (gocti_frame { db with note_tags := db.note_tags.filter (fun p => p.1 ≠ nid) } ns).1

theorem snt_nextNoteId (db : DB) (nid : Nat) (ns : List String) :
    (set_note_tags db nid ns).1.nextNoteId = db.nextNoteId :=
  (gocti_frame { db with note_tags := db.note_tags.filter (fun p => p.1 ≠ nid) } ns).2.2

theorem snt_tags (db : DB) (nid : Nat) (ns : List String) :
    (set_note_tags db nid ns).1.tags =
      (get_or_create_tag_ids
        { db with note_tags := db.note_tags.filter (fun p => p.1 ≠ nid) } ns).1.tags := rfl

theorem snt_note_tags (db : DB) (nid : Nat) (ns : List String) :
    (set_note_tags db nid ns).1.note_tags =
      insertAssocs nid
        (get_or_create_tag_ids
          { db with note_tags := db.note_tags.filter (fun p => p.1 ≠ nid) } ns).1.note_tags
        (get_or_create_tag_ids
          { db with note_tags := db.note_tags.filter (fun p => p.1 ≠ nid) } ns).2 := rfl

theorem snt_nil (db : DB) (nid : Nat) :
    set_note_tags db nid [] =
      ({ db with note_tags := db.note_tags.filter (fun p => p.1 ≠ nid) }, []) := rfl

theorem snt_filter_ne (db : DB) (nid : Nat) (ns : List String) :
    (set_note_tags db nid ns).1.note_tags.filter (fun p => p.1 ≠ nid) =
      (get_or_create_tag_ids
        { db with note_tags := db.note_tags.filter (fun p => p.1 ≠ nid) } ns).1.note_tags := by
  rw [snt_note_tags, insertAssocs_filter_ne,
    (gocti_frame { db with note_tags := db.note_tags.filter (fun p => p.1 ≠ nid) } ns).2.1]
  simp [List.filter_filter]

theorem snt_idem (db : DB) (nid : Nat) (ns : List String) :
    set_note_tags (set_note_tags db nid ns).1 nid ns = set_note_tags db nid ns := by
  have hstate :
      ({ (set_note_tags db nid ns).1 with
          note_tags := (set_note_tags db nid ns).1.note_tags.filter (fun p => p.1 ≠ nid) } : DB) =
        (get_or_create_tag_ids
          { db with note_tags := db.note_tags.filter (fun p => p.1 ≠ nid) } ns).1 := by
    rw [snt_filter_ne]
    rfl
  conv_lhs => rw [snt_eq ((set_note_tags db nid ns).1) nid ns]
  rw [hstate, gocti_idem]
  exact (snt_eq db nid ns).symm

/-! Preservation of well-formedness by every operation. -/

theorem gocti_tags_wf (db : DB) (ns : List String)
    (h1 : (db.tags.map Tag.name).Nodup) (h2 : (db.tags.map Tag.id).Nodup)
    (h3 : ∀ t ∈ db.tags, t.id < db.nextTagId) :
    ((get_or_create_tag_ids db ns).1.tags.map Tag.name).Nodup ∧
      ((get_or_create_tag_ids db ns).1.tags.map Tag.id).Nodup ∧
      ∀ t ∈ (get_or_create_tag_ids db ns).1.tags,
        t.id < (get_or_create_tag_ids db ns).1.nextTagId := by
  induction ns generalizing db with
  | nil => exact ⟨h1, h2, h3⟩
  | cons n rest ih =>
    rw [gocti_cons db n rest]
    by_cases h : strip n = ""
    · rw [if_pos h]; exact ih db h1 h2 h3
    · rw [if_neg h]
      cases hf : db.tags.find? (fun t => t.name = strip n) with
      | some t => exact ih db h1 h2 h3
      | none =>
        have hnm : ∀ t ∈ db.tags, t.name ≠ strip n := by
          intro t ht
          have := List.find?_eq_none.mp hf t ht
          simpa using this
        have hA : ((addTag db (strip n)).tags.map Tag.name).Nodup := by
          simp only [addTag, List.map_append, List.map_cons, List.map_nil]
          rw [List.nodup_append]
          refine ⟨h1, List.nodup_singleton _, ?_⟩
          intro x hx hx1
          rw [List.mem_singleton] at hx1
          subst hx1
          obtain ⟨t, ht, hteq⟩ := List.mem_map.mp hx
          exact hnm t ht hteq
        have hB : ((addTag db (strip n)).tags.map Tag.id).Nodup := by
          simp only [addTag, List.map_append, List.map_cons, List.map_nil]
          rw [List.nodup_append]
          refine ⟨h2, List.nodup_singleton _, ?_⟩
          intro x hx hx1
          rw [List.mem_singleton] at hx1
          subst hx1
          obtain ⟨t, ht, hteq⟩ := List.mem_map.mp hx
          exact absurd (hteq ▸ h3 t ht) (Nat.lt_irrefl _)
        have hC : ∀ t ∈ (addTag db (strip n)).tags, t.id < (addTag db (strip n)).nextTagId := by
          intro t ht
          simp only [addTag, List.mem_append, List.mem_singleton] at ht
          rcases ht with ht | ht
          · exact Nat.lt_succ_of_lt (h3 t ht)
          · subst ht; exact Nat.lt_succ_self _
        exact ih (addTag db (strip n)) hA hB hC

theorem map_id_of_update (l : List Note) (f : Note → Note) (hf : ∀ n, (f n).id = n.id) :
    (l.map f).map Note.id = l.map Note.id := by
  rw [List.map_map]
  exact List.map_congr_left (fun a _ => hf a)

theorem snt_wf (db : DB) (nid : Nat) (ns : List String) (hwf : WF db)
    (hn : nid < db.nextNoteId) : WF (set_note_tags db nid ns).1 := by
  obtain ⟨w1, w2, w3, w4, w5, w6, w7⟩ := hwf
  have htags := gocti_tags_wf
    { db with note_tags := db.note_tags.filter (fun p => p.1 ≠ nid) } ns w1 w2 w3
  have hfr := (gocti_frame
    { db with note_tags := db.note_tags.filter (fun p => p.1 ≠ nid) } ns).2.1
  refine ⟨htags.1, htags.2.1, htags.2.2, ?_, ?_, ?_, ?_⟩
  · rw [show (set_note_tags db nid ns).1.notes = db.notes from snt_notes db nid ns]
    exact w4
  · intro n hn'
    rw [snt_notes db nid ns] at hn'
    rw [snt_nextNoteId db nid ns]
    exact w5 n hn'
  · rw [snt_note_tags db nid ns]
    apply insertAssocs_nodup
    rw [hfr]
    exact List.Nodup.filter _ w6
  · intro p hp
    rw [snt_note_tags db nid ns] at hp
    rw [snt_nextNoteId db nid ns]
    rcases insertAssocs_mem_of _ _ _ p hp with hin | h1
    · rw [hfr] at hin
      exact w7 p (List.mem_of_mem_filter hin)
    · rw [h1]; exact hn

theorem wf_create (db : DB) (now : Nat) (d : CreateData) (hwf : WF db) :
    WF (create_note db now d).1 := by
  obtain ⟨w1, w2, w3, w4, w5, w6, w7⟩ := hwf
  have hdb1 : WF { db with
      notes := db.notes ++ [⟨db.nextNoteId, d.title, d.content, d.category, now, now⟩],
      nextNoteId := db.nextNoteId + 1 } := by
    refine ⟨w1, w2, w3, ?_, ?_, w6, ?_⟩
    · simp only [List.map_append, List.map_cons, List.map_nil]
      rw [List.nodup_append]
      refine ⟨w4, List.nodup_singleton _, ?_⟩
      intro x hx hx1
      rw [List.mem_singleton] at hx1
      subst hx1
      obtain ⟨m, hm, hmeq⟩ := List.mem_map.mp hx
      exact absurd (hmeq ▸ w5 m hm) (Nat.lt_irrefl _)
    · intro m hm
      simp only [List.mem_append, List.mem_singleton] at hm
      rcases hm with hm | hm
      · exact Nat.lt_succ_of_lt (w5 m hm)
      · subst hm; exact Nat.lt_succ_self _
    · intro p hp
      exact Nat.lt_succ_of_lt (w7 p hp)
  unfold create_note
  by_cases ht : d.tags.getD [] = []
  · simpa [ht] using hdb1
  · simp only [ht, if_false]
    exact snt_wf _ db.nextNoteId _ hdb1 (Nat.lt_succ_self _)

theorem wf_delete (db : DB) (nid : Nat) (hwf : WF db) : WF (delete_note db nid).1 := by
  obtain ⟨w1, w2, w3, w4, w5, w6, w7⟩ := hwf
  refine ⟨w1, w2, w3, ?_, ?_, w6, w7⟩
  · have hsub : List.Sublist
        ((db.notes.filter (fun n => n.id ≠ nid)).map Note.id) (db.notes.map Note.id) :=
      List.Sublist.map Note.id (List.filter_sublist _)
    exact hsub.nodup w4
  · intro m hm
    exact w5 m (List.mem_of_mem_filter hm)

theorem wf_update (db : DB) (now : Nat) (nid : Nat) (d : UpdateData) (hwf : WF db) :
    WF (update_note db now nid d).1 := by
  unfold update_note
  cases hfind : db.notes.find? (fun n => n.id = nid) with
  | none => exact hwf
  | some n0 =>
    obtain ⟨w1, w2, w3, w4, w5, w6, w7⟩ := hwf
    have hnid : nid < db.nextNoteId := by
      have hmem := List.mem_of_find?_eq_some hfind
      have hpred := List.find?_some hfind
      have : n0.id = nid := by simpa using hpred
      exact this ▸ w5 n0 hmem
    have hdb1 : ∀ db1 : DB, db1 =
        (if d.title.isSome || d.content.isSome || d.category.isSome then
          { db with notes := db.notes.map (fun n =>
              if n.id = nid then applySets d now n else n) }
        else db) → WF db1 ∧ db1.nextNoteId = db.nextNoteId := by
      intro db1 hdb1
      subst hdb1
      by_cases hs : d.title.isSome || d.content.isSome || d.category.isSome
      · rw [if_pos hs]
        refine ⟨⟨w1, w2, w3, ?_, ?_, w6, w7⟩, rfl⟩
        · rw [map_id_of_update db.notes _ (fun n => by by_cases hn : n.id = nid <;> simp [hn, applySets])]
          exact w4
        · intro m hm
          obtain ⟨m0, hm0, hm0eq⟩ := List.mem_map.mp hm
          have : m.id = m0.id := by
            subst hm0eq
            by_cases hn : m0.id = nid <;> simp [hn, applySets]
          rw [this]
          exact w5 m0 hm0
      · rw [if_neg hs]
        exact ⟨⟨w1, w2, w3, w4, w5, w6, w7⟩, rfl⟩
  -- the state after the optional UPDATE statement
    obtain ⟨hwf1, hnext1⟩ := hdb1 _ rfl
    have hwf2 : WF (match d.tags with
        | some ts => (set_note_tags
            (if d.title.isSome || d.content.isSome || d.category.isSome then
              { db with notes := db.notes.map (fun n =>
                  if n.id = nid then applySets d now n else n) }
            else db) nid ts).1
        | none =>
          (if d.title.isSome || d.content.isSome || d.category.isSome then
            { db with notes := db.notes.map (fun n =>
                if n.id = nid then applySets d now n else n) }
          else db) : DB) := by
      cases d.tags with
      | none => exact hwf1
      | some ts => exact snt_wf _ nid ts hwf1 (by rw [hnext1]; exact hnid)
    dsimp only
    split
    · exact hwf2
    · exact hwf2

theorem wf_init : WF initDB := by
  unfold WF
  decide

theorem wf_reach (db : DB) (h : Reach db) : WF db := by
  induction h with
  | init => exact wf_init
  | create db now d _ ih => exact wf_create db now d ih
  | update db now nid d _ ih => exact wf_update db now nid d ih
  | delete db nid _ ih => exact wf_delete db nid ih

/-! Result characterization of `update_note`, `create_note` and `get_note`. -/

theorem update_note_none (db : DB) (now nid : Nat) (d : UpdateData)
    (hfind : db.notes.find? (fun n => n.id = nid) = none) :
    update_note db now nid d = (db, none) := by
  unfold update_note
  rw [hfind]

theorem get_tags_congr (db db' : DB) (nid : Nat) (h1 : db'.note_tags = db.note_tags)
    (h2 : db'.tags = db.tags) : get_tags_for_note db' nid = get_tags_for_note db nid := by
  unfold get_tags_for_note
  rw [h1, h2]

theorem update_note_spec (db : DB) (now nid : Nat) (d : UpdateData) (n0 : Note)
    (hfind : db.notes.find? (fun n => n.id = nid) = some n0) :
    (update_note db now nid d).1.notes =
        (if (d.title.isSome || d.content.isSome || d.category.isSome) = true then
          db.notes.map (fun n => if n.id = nid then applySets d now n else n)
        else db.notes) ∧
      (update_note db now nid d).2 =
        some ⟨(if (d.title.isSome || d.content.isSome || d.category.isSome) = true then
            applySets d now n0 else n0),
          get_tags_for_note (update_note db now nid d).1 nid⟩ := by
  have hid : n0.id = nid := by simpa using List.find?_some hfind
  have hp : ((fun n : Note => decide (n.id = nid)) ∘
      (fun n => if n.id = nid then applySets d now n else n)) =
      (fun n : Note => decide (n.id = nid)) := by
    funext n
    by_cases h : n.id = nid <;> simp [h, applySets]
  have hfmap : (db.notes.map (fun n => if n.id = nid then applySets d now n else n)).find?
      (fun n => n.id = nid) = some (applySets d now n0) := by
    rw [List.find?_map, hp, hfind, Option.map_some']
    rw [if_pos hid]
  unfold update_note
  rw [hfind]
  dsimp only
  cases hdt : d.tags with
  | none =>
    by_cases hs : (d.title.isSome || d.content.isSome || d.category.isSome) = true
    · rw [if_pos hs]
      dsimp only
      rw [hfmap]
      dsimp only
      constructor
      · rw [if_pos hs]
      · rw [if_pos hs]
    · rw [if_neg hs]
      dsimp only
      rw [hfind]
      dsimp only
      constructor
      · rw [if_neg hs]
      · rw [if_neg hs]
  | some ts =>
    by_cases hs : (d.title.isSome || d.content.isSome || d.category.isSome) = true
    · rw [if_pos hs]
      dsimp only
      rw [snt_notes]
      dsimp only
      rw [hfmap]
      dsimp only
      constructor
      · rw [if_pos hs]
        exact snt_notes _ nid ts
      · rw [if_pos hs]
    · rw [if_neg hs]
      dsimp only
      rw [snt_notes, hfind]
      dsimp only
      constructor
      · rw [if_neg hs]
        exact snt_notes _ nid ts
      · rw [if_neg hs]

theorem update_note_state_no_tags (db : DB) (now nid : Nat) (d : UpdateData)
    (hdt : d.tags = none) :
    (update_note db now nid d).1.tags = db.tags ∧
      (update_note db now nid d).1.note_tags = db.note_tags := by
  unfold update_note
  cases hfind : db.notes.find? (fun n => n.id = nid) with
  | none => exact ⟨rfl, rfl⟩
  | some n0 =>
    dsimp only
    rw [hdt]
    dsimp only
    constructor
    · split
      · split <;> rfl
      · split <;> rfl
    · split
      · split <;> rfl
      · split <;> rfl

theorem create_note_no_tags (db : DB) (now : Nat) (d : CreateData)
    (hd : d.tags.getD [] = []) :
    create_note db now d =
      ({ db with
          notes := db.notes ++ [⟨db.nextNoteId, d.title, d.content, d.category, now, now⟩],
          nextNoteId := db.nextNoteId + 1 },
        ⟨⟨db.nextNoteId, d.title, d.content, d.category, now, now⟩, []⟩) := by
  unfold create_note
  rw [if_pos hd]

/-! Membership characterization of `list_notes` and truthiness helpers. -/

theorem truthyOpt_none_iff (o : Option String) :
    truthyOpt o = none ↔ o = none ∨ o = some "" := by
  cases o with
  | none => simp [truthyOpt]
  | some s => by_cases h : s = "" <;> simp [truthyOpt, h]

theorem truthyOpt_some_iff (o : Option String) (s0 : String) :
    truthyOpt o = some s0 ↔ o = some s0 ∧ s0 ≠ "" := by
  cases o with
  | none => simp [truthyOpt]
  | some s =>
    by_cases h : s = ""
    · simp [truthyOpt, h]
      intro h2
      exact h2.symm
    · simp [truthyOpt, h]
      intro h2
      rw [← h2]
      exact h

theorem forall_cond_none (o : Option String) (P : String → Prop)
    (h : truthyOpt o = none) : ∀ s, o = some s → s ≠ "" → P s := by
  intro s hs hne
  rcases (truthyOpt_none_iff o).mp h with h1 | h1
  · rw [h1] at hs; cases hs
  · rw [h1] at hs
    cases hs
    exact absurd rfl hne

theorem forall_cond_none_iff (o : Option String) (P : String → Prop)
    (h : truthyOpt o = none) : (∀ s, o = some s → s ≠ "" → P s) ↔ True :=
  iff_true_intro (forall_cond_none o P h)

theorem forall_cond_some (o : Option String) (P : String → Prop) (s0 : String)
    (h : truthyOpt o = some s0) : (∀ s, o = some s → s ≠ "" → P s) ↔ P s0 := by
  obtain ⟨ho, hne⟩ := (truthyOpt_some_iff o s0).mp h
  constructor
  · intro hall
    exact hall s0 ho hne
  · intro hp s hs hne2
    rw [ho] at hs
    cases hs
    exact hp

theorem mem_tagJoin (db : DB) (s : String) (n : Note) :
    (n ∈ db.notes.flatMap (fun n =>
        (db.note_tags.filter (fun p => p.1 = n.id)).flatMap (fun p =>
          ((db.tags.filter (fun t => t.id = p.2)).filter (fun t => t.name = s)).map
            (fun _ => n)))) ↔
      n ∈ db.notes ∧
        ∃ p ∈ db.note_tags, p.1 = n.id ∧ ∃ t ∈ db.tags, t.id = p.2 ∧ t.name = s := by
  simp only [List.mem_flatMap, List.mem_map, List.mem_filter, decide_eq_true_eq]
  constructor
  · rintro ⟨a, ha, p, ⟨hp, hpa⟩, t, ⟨⟨ht, htid⟩, htnm⟩, rfl⟩
    exact ⟨ha, p, hp, hpa, t, ht, htid, htnm⟩
  · rintro ⟨ha, p, hp, hpa, t, ht, htid, htnm⟩
    exact ⟨n, ha, p, ⟨hp, hpa⟩, t, ⟨⟨ht, htid⟩, htnm⟩, rfl⟩

theorem list_notes_mem (db : DB) (q tag cat : Option String) (n : Note) :
    n ∈ (list_notes db q tag cat).map NoteOut.note ↔
      n ∈ db.notes ∧
        (∀ s, q = some s → s ≠ "" → (likeStr s n.title || likeStr s n.content) = true) ∧
        (∀ s, cat = some s → s ≠ "" → n.category = some s) ∧
        (∀ s, tag = some s → s ≠ "" →
          ∃ p ∈ db.note_tags, p.1 = n.id ∧ ∃ t ∈ db.tags, t.id = p.2 ∧ t.name = s) := by
  unfold list_notes
  rw [List.map_map]
  rw [show (NoteOut.note ∘ fun n => (⟨n, get_tags_for_note db n.id⟩ : NoteOut)) =
    (fun n : Note => n) from rfl]
  rw [List.map_id']
  rw [(List.perm_insertionSort noteLe _).mem_iff]
  cases hc : truthyOpt cat with
  | none =>
    rw [forall_cond_none_iff cat _ hc]
    cases hq : truthyOpt q with
    | none =>
      rw [forall_cond_none_iff q _ hq]
      cases ht : truthyOpt tag with
      | none =>
        rw [forall_cond_none_iff tag _ ht]
        simp
      | some s3 =>
        rw [forall_cond_some tag _ s3 ht, mem_tagJoin db s3 n]
        tauto
    | some s2 =>
      rw [forall_cond_some q _ s2 hq]
      cases ht : truthyOpt tag with
      | none =>
        rw [forall_cond_none_iff tag _ ht]
        rw [List.mem_filter]
        tauto
      | some s3 =>
        rw [forall_cond_some tag _ s3 ht]
        rw [List.mem_filter, mem_tagJoin db s3 n]
        tauto
  | some s1 =>
    rw [forall_cond_some cat _ s1 hc]
    cases hq : truthyOpt q with
    | none =>
      rw [forall_cond_none_iff q _ hq]
      cases ht : truthyOpt tag with
      | none =>
        rw [forall_cond_none_iff tag _ ht]
        rw [List.mem_filter]
        simp only [decide_eq_true_eq]
        tauto
      | some s3 =>
        rw [forall_cond_some tag _ s3 ht]
        rw [List.mem_filter, mem_tagJoin db s3 n]
        simp only [decide_eq_true_eq]
        tauto
    | some s2 =>
      rw [forall_cond_some q _ s2 hq]
      cases ht : truthyOpt tag with
      | none =>
        rw [forall_cond_none_iff tag _ ht]
        rw [List.mem_filter, List.mem_filter]
        simp only [decide_eq_true_eq]
        tauto
      | some s3 =>
        rw [forall_cond_some tag _ s3 ht]
        rw [List.mem_filter, List.mem_filter, mem_tagJoin db s3 n]
        simp only [decide_eq_true_eq]
        tauto


theorem gtfn_mem (db : DB) (nid : Nat) (nm : String) :
    nm ∈ get_tags_for_note db nid ↔
      ∃ p ∈ db.note_tags, p.1 = nid ∧ ∃ t ∈ db.tags, t.id = p.2 ∧ t.name = nm := by
  unfold get_tags_for_note
  rw [(List.perm_insertionSort _ _).mem_iff]
  simp only [List.mem_flatMap, List.mem_map, List.mem_filter, decide_eq_true_eq]
  constructor
  · rintro ⟨p, ⟨hp, hp1⟩, t, ⟨ht, htid⟩, rfl⟩
    exact ⟨p, hp, hp1, t, ht, htid, rfl⟩
  · rintro ⟨p, hp, hp1, t, ht, htid, htnm⟩
    exact ⟨p, ⟨hp, hp1⟩, t, ⟨ht, htid⟩, htnm⟩

theorem gtfn_sorted (db : DB) (nid : Nat) :
    List.Sorted (fun a b : String => a ≤ b) (get_tags_for_note db nid) :=
  List.sorted_insertionSort _ _

theorem gtfn_nodup (db : DB) (nid : Nat) (h1 : (db.tags.map Tag.name).Nodup)
    (h2 : (db.tags.map Tag.id).Nodup) (h6 : db.note_tags.Nodup) :
    (get_tags_for_note db nid).Nodup := by
  unfold get_tags_for_note
  rw [(List.perm_insertionSort _ _).nodup_iff]
  rw [List.nodup_flatMap]
  have htags : db.tags.Nodup := h2.of_map
  constructor
  · intro p _
    cases hft : db.tags.filter (fun t => t.id = p.2) with
    | nil => simp
    | cons t rest =>
      cases rest with
      | nil => simp
      | cons t2 rest2 =>
        exfalso
        have hmem1 : t ∈ db.tags.filter (fun t => t.id = p.2) := by
          rw [hft]; exact List.mem_cons_self _ _
        have hmem2 : t2 ∈ db.tags.filter (fun t => t.id = p.2) := by
          rw [hft]; exact List.mem_cons_of_mem _ (List.mem_cons_self _ _)
        have hf1 := List.mem_filter.mp hmem1
        have hf2 := List.mem_filter.mp hmem2
        have hne : t ≠ t2 := by
          have hnd : (db.tags.filter (fun t => t.id = p.2)).Nodup := List.Nodup.filter _ htags
          rw [hft, List.nodup_cons] at hnd
          intro he
          exact hnd.1 (he ▸ List.mem_cons_self t2 rest2)
        apply hne
        apply List.inj_on_of_nodup_map h2 (List.mem_of_mem_filter hmem1)
          (List.mem_of_mem_filter hmem2)
        have e1 : t.id = p.2 := by simpa using hf1.2
        have e2 : t2.id = p.2 := by simpa using hf2.2
        rw [e1, e2]
  · have hnd : (db.note_tags.filter (fun p => p.1 = nid)).Nodup := List.Nodup.filter _ h6
    apply List.Pairwise.imp_of_mem ?_ hnd
    intro a b ha hb hne nm hma hmb
    simp only [List.mem_map, List.mem_filter, decide_eq_true_eq] at hma hmb
    obtain ⟨t1, ⟨ht1, ht1id⟩, ht1nm⟩ := hma
    obtain ⟨t2, ⟨ht2, ht2id⟩, ht2nm⟩ := hmb
    have heq : t1 = t2 := List.inj_on_of_nodup_map h1 ht1 ht2 (by rw [ht1nm, ht2nm])
    apply hne
    have ha1 : a.1 = nid := by simpa using (List.mem_filter.mp ha).2
    have hb1 : b.1 = nid := by simpa using (List.mem_filter.mp hb).2
    apply Prod.ext
    · rw [ha1, hb1]
    · rw [← ht1id, heq, ht2id]

theorem list_notes_pairwise (db : DB) (q tag cat : Option String) :
    List.Pairwise (fun a b : NoteOut =>
      b.note.updated_at < a.note.updated_at ∨
        (b.note.updated_at = a.note.updated_at ∧
          b.note.created_at ≤ a.note.created_at))
      (list_notes db q tag cat) := by
  unfold list_notes
  exact List.Pairwise.map _ (fun a b hab => hab) (List.sorted_insertionSort noteLe _)

theorem list_notes_elems (db : DB) (q tag cat : Option String) :
    ∀ o ∈ list_notes db q tag cat, o.tags = get_tags_for_note db o.note.id := by
  unfold list_notes
  intro o ho
  obtain ⟨n, _, rfl⟩ := List.mem_map.mp ho
  rfl

/-! The claim theorems. -/

/-- C1: delete on a nonexistent id returns false without error, and delete on
an existing id removes the note row so that a subsequent get returns the
not-found signal — but, contrary to the claim, the note's (note_id, tag_id)
association rows are NOT removed, because `get_conn` never enables
`PRAGMA foreign_keys` and sqlite then ignores the schema's ON DELETE CASCADE:
after creating a note with tag "a" and deleting it, the orphaned association
row (1, 1) is still present. -/
theorem c1_delete_cascade_eval :
    delete_note initDB 5 = (initDB, false) ∧
    (let r := create_note initDB 0 ⟨"t", "c", none, some ["a"]⟩
     let d := delete_note r.1 r.2.note.id
     d.2 = true ∧
       get_note d.1 r.2.note.id = none ∧
       d.1.note_tags = [(1, 1)] ∧
       d.1.tags = [⟨1, "a"⟩]) := by
  exact ⟨rfl, rfl, rfl, rfl, rfl⟩

/-- C2 counterexample: a tags-only update does not refresh `updated_at`.  On a
note created at time 0, an update at time 5 whose only present field is `tags`
returns the note with `updated_at` still 0, not 5. -/
theorem c2_counterexample :
    (let s1 := create_note initDB 0 ⟨"t", "c", none, none⟩
     let u := update_note s1.1 5 1 ⟨none, none, none, some ["x"]⟩
     u.2.map (fun o => o.note.updated_at) = some 0 ∧ (0 : Nat) ≠ 5) := by
  exact ⟨rfl, by decide⟩

/-- C2 amended: for an existing note, `update_note` sets the returned note's
`updated_at` to the current time if and only if at least one of title,
content, or category is present in the input; in particular a tags-only
update leaves `updated_at` at its prior value. -/
theorem c2_updated_at_iff_non_tag_field (db : DB) (now nid : Nat) (d : UpdateData)
    (n0 : Note) (hfind : db.notes.find? (fun n => n.id = nid) = some n0) :
    ∃ out : NoteOut, (update_note db now nid d).2 = some out ∧
      out.note.updated_at =
        (if (d.title.isSome || d.content.isSome || d.category.isSome) = true then now
         else n0.updated_at) := by
  obtain ⟨_, h2⟩ := update_note_spec db now nid d n0 hfind
  refine ⟨_, h2, ?_⟩
  by_cases hs : (d.title.isSome || d.content.isSome || d.category.isSome) = true
  · rw [if_pos hs, if_pos hs]
    rfl
  · rw [if_neg hs, if_neg hs]

/-- C2 witness: the amended statement applied to a tags-only update of note 1
of a one-note database. -/
theorem c2_witness :
    ∃ out : NoteOut,
      (update_note (create_note initDB 0 ⟨"t", "c", none, none⟩).1 5 1
          ⟨none, none, none, some ["x"]⟩).2 = some out ∧
        out.note.updated_at =
          (if ((⟨none, none, none, some ["x"]⟩ : UpdateData).title.isSome ||
              (⟨none, none, none, some ["x"]⟩ : UpdateData).content.isSome ||
              (⟨none, none, none, some ["x"]⟩ : UpdateData).category.isSome) = true then 5
           else (⟨1, "t", "c", none, 0, 0⟩ : Note).updated_at) :=
  c2_updated_at_iff_non_tag_field (create_note initDB 0 ⟨"t", "c", none, none⟩).1 5 1
    ⟨none, none, none, some ["x"]⟩ ⟨1, "t", "c", none, 0, 0⟩ rfl

/-- C3 counterexample: the text filter is not plain substring matching.  With
a single note titled "ab" with content "cd", listing with text "_" returns
that note although "_" is a substring of neither title nor content — SQL LIKE
treats "_" as a single-character wildcard. -/
theorem c3_counterexample :
    (let db1 := (create_note initDB 0 ⟨"ab", "cd", none, none⟩).1
     (list_notes db1 (some "_") none none).map (fun o => o.note.id) = [1] ∧
       ¬ ("_".data <:+: "ab".data) ∧ ¬ ("_".data <:+: "cd".data)) := by
  refine ⟨rfl, by decide, by decide⟩

/-- C3 amended: a note is listed exactly when it satisfies the conjunction of
all supplied (truthy) filters, where text matches per SQLite LIKE against
title OR content (ASCII-case-insensitive, with % and _ as wildcards),
category matches by equality, and tag by exact tag-name association; with no
filters supplied every note is listed. -/
theorem c3_filters_conjunction (db : DB) (q tag cat : Option String) (n : Note) :
    (n ∈ (list_notes db q tag cat).map NoteOut.note ↔
      n ∈ db.notes ∧
        (∀ s, q = some s → s ≠ "" → (likeStr s n.title || likeStr s n.content) = true) ∧
        (∀ s, cat = some s → s ≠ "" → n.category = some s) ∧
        (∀ s, tag = some s → s ≠ "" →
          ∃ p ∈ db.note_tags, p.1 = n.id ∧ ∃ t ∈ db.tags, t.id = p.2 ∧ t.name = s)) ∧
    ∀ m : Note, m ∈ (list_notes db none none none).map NoteOut.note ↔ m ∈ db.notes := by
  constructor
  · exact list_notes_mem db q tag cat n
  · intro m
    rw [list_notes_mem db none none none m]
    simp

/-- C4: `set_note_tags` is idempotent — repeating it with the same list is a
no-op on the state and the result; afterwards the note's association rows
have no duplicates; and an empty list removes all of the note's associations
and returns the empty tag set. -/
theorem c4_replace_tags_idempotent (db : DB) (nid : Nat) (tag_names : List String) :
    set_note_tags (set_note_tags db nid tag_names).1 nid tag_names =
        set_note_tags db nid tag_names ∧
      ((set_note_tags db nid tag_names).1.note_tags.filter (fun p => p.1 = nid)).Nodup ∧
      (set_note_tags db nid []).1.note_tags =
        db.note_tags.filter (fun p => p.1 ≠ nid) ∧
      (set_note_tags db nid []).2 = [] := by
  refine ⟨snt_idem db nid tag_names, ?_, rfl, rfl⟩
  rw [snt_note_tags]
  apply insertAssocs_filter_nodup
  rw [(gocti_frame { db with note_tags := db.note_tags.filter (fun p => p.1 ≠ nid) }
    tag_names).2.1]
  have hnil : (({ db with note_tags := db.note_tags.filter (fun p => p.1 ≠ nid) } :
      DB).note_tags.filter (fun p => p.1 = nid)) = [] := by
    show (db.note_tags.filter _).filter _ = []
    rw [List.filter_filter]
    apply List.filter_eq_nil_iff.mpr
    intro a _
    by_cases h : a.1 = nid <;> simp [h]
  rw [hnil]
  exact List.nodup_nil

/-- C5: a title-only update on an existing note sets the new title, leaves
content, category, created_at, the tag set and the association table
unchanged, and advances `updated_at` strictly beyond its prior value
(provided the clock advanced); in general fields absent from the partial
input retain their prior values. -/
theorem c5_title_only_update (db : DB) (now nid : Nat) (t : String) (n0 : Note)
    (hfind : db.notes.find? (fun n => n.id = nid) = some n0)
    (hlt : n0.updated_at < now) :
    ∃ out : NoteOut,
      (update_note db now nid ⟨some t, none, none, none⟩).2 = some out ∧
        out.note.title = t ∧
        out.note.content = n0.content ∧
        out.note.category = n0.category ∧
        out.note.created_at = n0.created_at ∧
        out.note.updated_at = now ∧
        n0.updated_at < out.note.updated_at ∧
        out.tags = get_tags_for_note db nid ∧
        (update_note db now nid ⟨some t, none, none, none⟩).1.note_tags = db.note_tags ∧
        ∀ (d : UpdateData) (out2 : NoteOut),
          (update_note db now nid d).2 = some out2 →
            (d.title = none → out2.note.title = n0.title) ∧
            (d.content = none → out2.note.content = n0.content) ∧
            (d.category = none → out2.note.category = n0.category) := by
  obtain ⟨_, h2⟩ := update_note_spec db now nid ⟨some t, none, none, none⟩ n0 hfind
  have hstate := update_note_state_no_tags db now nid ⟨some t, none, none, none⟩ rfl
  have hgt := get_tags_congr db (update_note db now nid ⟨some t, none, none, none⟩).1 nid
    hstate.2 hstate.1
  refine ⟨_, h2, rfl, rfl, rfl, rfl, rfl, hlt, hgt, hstate.2, ?_⟩
  intro d out2 hout2
  obtain ⟨_, h2d⟩ := update_note_spec db now nid d n0 hfind
  rw [hout2] at h2d
  have hnote : out2.note =
      (if (d.title.isSome || d.content.isSome || d.category.isSome) = true then
        applySets d now n0 else n0) := by
    have := congrArg (fun o : Option NoteOut => o.map NoteOut.note) h2d
    simpa using this
  rw [hnote]
  by_cases hs : (d.title.isSome || d.content.isSome || d.category.isSome) = true
  · rw [if_pos hs]
    refine ⟨?_, ?_, ?_⟩ <;> intro hnone <;> simp [applySets, hnone]
  · rw [if_neg hs]
    exact ⟨fun _ => rfl, fun _ => rfl, fun _ => rfl⟩

/-- C5 witness: a title-only update at time 5 of note 1, created at time 0
with content "c" and no category. -/
theorem c5_witness :
    ∃ out : NoteOut,
      (update_note (create_note initDB 0 ⟨"t", "c", none, none⟩).1 5 1
          ⟨some "X", none, none, none⟩).2 = some out ∧
        out.note.title = "X" ∧
        out.note.content = (⟨1, "t", "c", none, 0, 0⟩ : Note).content ∧
        out.note.category = (⟨1, "t", "c", none, 0, 0⟩ : Note).category ∧
        out.note.created_at = (⟨1, "t", "c", none, 0, 0⟩ : Note).created_at ∧
        out.note.updated_at = 5 ∧
        (⟨1, "t", "c", none, 0, 0⟩ : Note).updated_at < out.note.updated_at ∧
        out.tags = get_tags_for_note (create_note initDB 0 ⟨"t", "c", none, none⟩).1 1 ∧
        (update_note (create_note initDB 0 ⟨"t", "c", none, none⟩).1 5 1
          ⟨some "X", none, none, none⟩).1.note_tags =
          (create_note initDB 0 ⟨"t", "c", none, none⟩).1.note_tags ∧
        ∀ (d : UpdateData) (out2 : NoteOut),
          (update_note (create_note initDB 0 ⟨"t", "c", none, none⟩).1 5 1 d).2 =
              some out2 →
            (d.title = none → out2.note.title = (⟨1, "t", "c", none, 0, 0⟩ : Note).title) ∧
            (d.content = none →
              out2.note.content = (⟨1, "t", "c", none, 0, 0⟩ : Note).content) ∧
            (d.category = none →
              out2.note.category = (⟨1, "t", "c", none, 0, 0⟩ : Note).category) :=
  c5_title_only_update (create_note initDB 0 ⟨"t", "c", none, none⟩).1 5 1 "X"
    ⟨1, "t", "c", none, 0, 0⟩ rfl (by decide)

/-- C6: in every state reachable by the repository operations no two tag rows
share a name; in particular creating two notes each tagged ["a"] yields
exactly one tag row named "a" with both notes associated to it. -/
theorem c6_tag_names_unique :
    (∀ db : DB, Reach db → (db.tags.map Tag.name).Nodup) ∧
    (let r1 := create_note initDB 0 ⟨"n1", "c1", none, some ["a"]⟩
     let r2 := create_note r1.1 1 ⟨"n2", "c2", none, some ["a"]⟩
     r1.2.note.id = 1 ∧ r2.2.note.id = 2 ∧ r2.1.tags = [⟨1, "a"⟩] ∧
       (1, 1) ∈ r2.1.note_tags ∧ (2, 1) ∈ r2.1.note_tags) := by
  constructor
  · intro db h
    exact (wf_reach db h).1
  · exact ⟨rfl, rfl, rfl, by decide, by decide⟩

/-- C6 witness: the invariant applied to the reachable state obtained by the
two tagged creations of the scenario. -/
theorem c6_witness :
    ((create_note (create_note initDB 0 ⟨"n1", "c1", none, some ["a"]⟩).1 1
        ⟨"n2", "c2", none, some ["a"]⟩).1.tags.map Tag.name).Nodup :=
  c6_tag_names_unique.1 _
    (Reach.create _ 1 _ (Reach.create initDB 0 _ Reach.init))

/-- C7: `get_or_create_tag_ids` returns exactly one id per input name that is
non-empty after stripping, in input order: the id list has the length of the
cleaned name list, position i holds the id of the tag whose name is the i-th
cleaned name, and equal cleaned names receive equal ids (duplicates are not
deduplicated, the same id is repeated). -/
theorem c7_resolve_or_create (db : DB) (tag_names : List String) :
    (get_or_create_tag_ids db tag_names).2.length = (cleanNames tag_names).length ∧
      (∀ i : Nat,
        (get_or_create_tag_ids db tag_names).2[i]? =
          ((cleanNames tag_names)[i]?).bind (fun nm =>
            ((get_or_create_tag_ids db tag_names).1.tags.find?
              (fun t => t.name = nm)).map Tag.id)) ∧
      ∀ i j : Nat,
        (cleanNames tag_names)[i]? = (cleanNames tag_names)[j]? →
          (get_or_create_tag_ids db tag_names).2[i]? =
            (get_or_create_tag_ids db tag_names).2[j]? := by
  refine ⟨gocti_length db tag_names, gocti_lookup db tag_names, ?_⟩
  intro i j hij
  rw [gocti_lookup db tag_names i, gocti_lookup db tag_names j, hij]

/-- C8: for every filter combination the returned sequence is ordered by
`updated_at` descending with ties broken by `created_at` descending, and each
returned note carries exactly its associated tag names as an alphabetically
sorted, duplicate-free list. -/
theorem c8_ordering_and_tags (db : DB) (q tag cat : Option String) (hwf : WF db) :
    List.Pairwise (fun a b : NoteOut =>
        b.note.updated_at < a.note.updated_at ∨
          (b.note.updated_at = a.note.updated_at ∧
            b.note.created_at ≤ a.note.created_at))
      (list_notes db q tag cat) ∧
    ∀ o ∈ list_notes db q tag cat,
      List.Sorted (fun a b : String => a ≤ b) o.tags ∧
        o.tags.Nodup ∧
        ∀ nm : String, nm ∈ o.tags ↔
          ∃ p ∈ db.note_tags, p.1 = o.note.id ∧
            ∃ t ∈ db.tags, t.id = p.2 ∧ t.name = nm := by
  obtain ⟨w1, w2, _, _, _, w6, _⟩ := hwf
  refine ⟨list_notes_pairwise db q tag cat, ?_⟩
  intro o ho
  rw [list_notes_elems db q tag cat o ho]
  exact ⟨gtfn_sorted db o.note.id, gtfn_nodup db o.note.id w1 w2 w6,
    fun nm => gtfn_mem db o.note.id nm⟩

/-- C8 witness: the ordering and tag-set statement applied to a concrete
well-formed one-note database queried with a tag filter. -/
theorem c8_witness :
    List.Pairwise (fun a b : NoteOut =>
        b.note.updated_at < a.note.updated_at ∨
          (b.note.updated_at = a.note.updated_at ∧
            b.note.created_at ≤ a.note.created_at))
      (list_notes ⟨[⟨1, "t", "c", none, 0, 0⟩], [⟨1, "a"⟩], [(1, 1)], 2, 2⟩
        none (some "a") none) ∧
    ∀ o ∈ list_notes (⟨[⟨1, "t", "c", none, 0, 0⟩], [⟨1, "a"⟩], [(1, 1)], 2, 2⟩ : DB)
        none (some "a") none,
      List.Sorted (fun a b : String => a ≤ b) o.tags ∧
        o.tags.Nodup ∧
        ∀ nm : String, nm ∈ o.tags ↔
          ∃ p ∈ (⟨[⟨1, "t", "c", none, 0, 0⟩], [⟨1, "a"⟩], [(1, 1)], 2, 2⟩ : DB).note_tags,
            p.1 = o.note.id ∧
            ∃ t ∈ (⟨[⟨1, "t", "c", none, 0, 0⟩], [⟨1, "a"⟩], [(1, 1)], 2, 2⟩ : DB).tags,
              t.id = p.2 ∧ t.name = nm :=
  c8_ordering_and_tags ⟨[⟨1, "t", "c", none, 0, 0⟩], [⟨1, "a"⟩], [(1, 1)], 2, 2⟩
    none (some "a") none (by unfold WF; decide)

/-- C9: on a well-formed state, create with no tags followed by get of the
returned id yields a note whose title and content equal the inputs, with the
tags field present and equal to the empty sequence. -/
theorem c9_create_then_get (db : DB) (now : Nat) (d : CreateData) (hwf : WF db)
    (hd : d.tags = none) :
    (create_note db now d).2.note.title = d.title ∧
      (create_note db now d).2.note.content = d.content ∧
      (create_note db now d).2.tags = [] ∧
      get_note (create_note db now d).1 ((create_note db now d).2.note.id) =
        some ⟨(create_note db now d).2.note, []⟩ := by
  obtain ⟨_, _, _, _, w5, _, w7⟩ := hwf
  have hct := create_note_no_tags db now d (by rw [hd]; rfl)
  rw [hct]
  refine ⟨rfl, rfl, rfl, ?_⟩
  unfold get_note
  have hfind : ({ db with
      notes := db.notes ++ [⟨db.nextNoteId, d.title, d.content, d.category, now, now⟩],
      nextNoteId := db.nextNoteId + 1 } : DB).notes.find?
        (fun n => n.id = db.nextNoteId) =
      some ⟨db.nextNoteId, d.title, d.content, d.category, now, now⟩ := by
    show (db.notes ++ [_]).find? _ = _
    rw [List.find?_append]
    have h0 : db.notes.find? (fun n => n.id = db.nextNoteId) = none := by
      apply List.find?_eq_none.mpr
      intro n hn
      simp only [decide_eq_true_eq]
      exact Nat.ne_of_lt (w5 n hn)
    rw [h0, List.find?_singleton]
    simp
  rw [hfind]
  have hgt : get_tags_for_note { db with
      notes := db.notes ++ [⟨db.nextNoteId, d.title, d.content, d.category, now, now⟩],
      nextNoteId := db.nextNoteId + 1 } db.nextNoteId = [] := by
    unfold get_tags_for_note
    have hnil : (({ db with
        notes := db.notes ++ [⟨db.nextNoteId, d.title, d.content, d.category, now, now⟩],
        nextNoteId := db.nextNoteId + 1 } : DB).note_tags.filter
          (fun p => p.1 = db.nextNoteId)) = [] := by
      show db.note_tags.filter _ = []
      apply List.filter_eq_nil_iff.mpr
      intro p hp
      simp only [decide_eq_true_eq]
      exact Nat.ne_of_lt (w7 p hp)
    rw [hnil]
    rfl
  rw [hgt]

/-- C9 witness: creating a note on the empty database and getting it back. -/
theorem c9_witness :
    (create_note initDB 7 ⟨"T", "C", some "cat", none⟩).2.note.title = "T" ∧
      (create_note initDB 7 ⟨"T", "C", some "cat", none⟩).2.note.content = "C" ∧
      (create_note initDB 7 ⟨"T", "C", some "cat", none⟩).2.tags = [] ∧
      get_note (create_note initDB 7 ⟨"T", "C", some "cat", none⟩).1
          ((create_note initDB 7 ⟨"T", "C", some "cat", none⟩).2.note.id) =
        some ⟨(create_note initDB 7 ⟨"T", "C", some "cat", none⟩).2.note, []⟩ :=
  c9_create_then_get initDB 7 ⟨"T", "C", some "cat", none⟩ (by unfold WF; decide) rfl

/-- C10: an empty-string value for any of the three filters behaves exactly
as if the filter were absent, and listing with only an empty-string text
filter returns all notes. -/
theorem c10_empty_string_filters (db : DB) (q tag cat : Option String) :
    list_notes db (some "") tag cat = list_notes db none tag cat ∧
      list_notes db q (some "") cat = list_notes db q none cat ∧
      list_notes db q tag (some "") = list_notes db q tag none ∧
      ∀ n : Note,
        n ∈ (list_notes db (some "") none none).map NoteOut.note ↔ n ∈ db.notes := by
  refine ⟨rfl, rfl, rfl, ?_⟩
  intro n
  rw [list_notes_mem db (some "") none none n]
  simp

end NotesApp
